import Mathlib

/-!
Verification of the `imgui` module of the `unrust` game engine
(`src/engine/imgui/mod.rs` and `src/engine/imgui/widgets.rs`).

The Rust code is shallowly embedded: `f32` components are modelled as
exact rationals, the `u16` mesh indices as naturals reduced `% 65536`
where the machine width matters, the per-frame builder and the
reconciliation cache as explicit state values, and `Rc` shared-ownership
handles as records carrying an address (`ptr`) next to the pointee.
External collaborators (the scene graph, asset system and engine
handles) are out of scope for the module and are abstracted to fresh
natural-number node handles.
-/

namespace Unrust

/-- `Metric` (mod.rs, lines 30-37): a 2D position or size in one of
three coordinate spaces.  `Native` values are fractions of the screen
(top-left `(0,0)`, bottom-right `(1,1)`), `Pixel` values are absolute
pixel offsets, and `Mixed` carries one part of each. -/
inductive Metric : Type where
  | Native (x y : ℚ)
  | Pixel (x y : ℚ)
  | Mixed (a : ℚ × ℚ) (b : ℚ × ℚ)
  deriving DecidableEq, Repr

/-- `impl Default for Metric` (mod.rs, lines 39-43). -/
def Metric.default : Metric := .Native 0 0

/-- `impl Add for Metric` (mod.rs, lines 51-77), translated clause by
clause.  The `Pixel + Mixed` arm reproduces line 65 of the source
verbatim: the result's pixel part is `(obx + x, oby + x)`, i.e. the
`x` component of the `Pixel` operand is added to both components. -/
def Metric.add : Metric → Metric → Metric
  | .Native x y, .Native ox oy => .Native (x + ox) (y + oy)
  | .Native x y, .Pixel ox oy => .Mixed (x, y) (ox, oy)
  | .Native x y, .Mixed (oax, oay) b => .Mixed (oax + x, oay + y) b
  | .Pixel x y, .Native ox oy => .Mixed (ox, oy) (x, y)
  | .Pixel x y, .Pixel ox oy => .Pixel (x + ox) (y + oy)
  | .Pixel x _y, .Mixed a (obx, oby) => .Mixed a (obx + x, oby + x)
  | .Mixed (ax, ay) (bx, by_), .Native ox oy => .Mixed (ax + ox, ay + oy) (bx, by_)
  | .Mixed (ax, ay) (bx, by_), .Pixel ox oy => .Mixed (ax, ay) (bx + ox, by_ + oy)
  | .Mixed (ax, ay) (bx, by_), .Mixed (oax, oay) (obx, oby) =>
      .Mixed (ax + oax, ay + oay) (bx + obx, by_ + oby)

instance : Add Metric := ⟨Metric.add⟩

/-- `impl Sub for Metric` (mod.rs, lines 79-89): negate the right
operand component-wise and add. -/
def Metric.sub : Metric → Metric → Metric
  | s, .Native px py => s.add (.Native (-px) (-py))
  | s, .Pixel px py => s.add (.Pixel (-px) (-py))
  | s, .Mixed (ax, ay) (bx, by_) => s.add (.Mixed (-ax, -ay) (-bx, -by_))

instance : Sub Metric := ⟨Metric.sub⟩

/-- Whether two `Metric` values carry the same tag (both `Native`, both
`Pixel`, or both `Mixed`). -/
def Metric.sameKind : Metric → Metric → Bool
  | .Native _ _, .Native _ _ => true
  | .Pixel _ _, .Pixel _ _ => true
  | .Mixed _ _, .Mixed _ _ => true
  | _, _ => false

/-- C3: metric addition is claimed commutative and associative under the
promotion rule, but the `Pixel + Mixed` arm (mod.rs line 65) adds the
`Pixel` operand's `x` component to the pixel part's `y` slot, so
commutativity fails: `Pixel(0,1) + Mixed((0,0),(0,0))` evaluates to
`Mixed((0,0),(0,0))` while the commuted sum evaluates to
`Mixed((0,0),(0,1))`.  The symmetric `Mixed + Pixel` arm (line 70) adds
component-wise, which is the documented behaviour. -/
theorem metric_add_pixel_mixed_not_commutative :
    Metric.add (.Pixel 0 1) (.Mixed (0, 0) (0, 0)) = .Mixed (0, 0) (0, 0) ∧
    Metric.add (.Mixed (0, 0) (0, 0)) (.Pixel 0 1) = .Mixed (0, 0) (0, 1) ∧
    Metric.add (.Pixel 0 1) (.Mixed (0, 0) (0, 0)) ≠
      Metric.add (.Mixed (0, 0) (0, 0)) (.Pixel 0 1) := by
  refine ⟨by simp [Metric.add], by simp [Metric.add], by simp [Metric.add, Prod.ext_iff]⟩

/-- C6: for two metrics of the same kind, `(a + b) - b = a` with exact
component arithmetic; the buggy `Pixel + Mixed` arm is never reached on
same-kind pairs. -/
theorem metric_same_kind_add_sub_cancel (a b : Metric)
    (h : a.sameKind b = true) : (a + b) - b = a := by
  show Metric.sub (Metric.add a b) b = a
  cases a with
  | Native x y =>
    cases b with
    | Native ox oy => simp [Metric.add, Metric.sub]
    | Pixel ox oy => simp [Metric.sameKind] at h
    | Mixed oa ob => simp [Metric.sameKind] at h
  | Pixel x y =>
    cases b with
    | Native ox oy => simp [Metric.sameKind] at h
    | Pixel ox oy => simp [Metric.add, Metric.sub]
    | Mixed oa ob => simp [Metric.sameKind] at h
  | Mixed pa pb =>
    cases b with
    | Native ox oy => simp [Metric.sameKind] at h
    | Pixel ox oy => simp [Metric.sameKind] at h
    | Mixed oa ob =>
      obtain ⟨ax, ay⟩ := pa
      obtain ⟨bx, by_⟩ := pb
      obtain ⟨oax, oay⟩ := oa
      obtain ⟨obx, oby⟩ := ob
      simp [Metric.add, Metric.sub]

/-- Witness for C6 at a concrete same-kind pair. -/
theorem metric_same_kind_add_sub_cancel_witness :
    (Metric.Pixel 1 2).sameKind (Metric.Pixel 3 4) = true ∧
    (Metric.Pixel 1 2 + Metric.Pixel 3 4) - Metric.Pixel 3 4 = Metric.Pixel 1 2 := by
  refine ⟨rfl, metric_same_kind_add_sub_cancel _ _ rfl⟩

/-- `TextAlign` (mod.rs, lines 91-102); defaults to `Left`. -/
inductive TextAlign : Type where
  | Left
  | Right
  | Center
  deriving DecidableEq, Repr

def TextAlign.default : TextAlign := .Left

/-- `internal::ImguiState` (mod.rs, lines 104-110): the ambient style
state snapshotted into every widget. -/
structure ImguiState : Type where
  pivot : Metric := Metric.default
  text_align : TextAlign := TextAlign.default
  deriving DecidableEq, Repr

/-- External texture asset (engine collaborator, out of the module's
scope); an opaque payload is carried only so that pointer identity and
structural equality of pointees can be told apart. -/
structure Texture : Type where
  data : ℕ
  deriving DecidableEq, Repr

/-- External material asset (engine collaborator), as `Texture`. -/
structure Material : Type where
  data : ℕ
  deriving DecidableEq, Repr

/-- `ImageRef<T>` (widgets.rs, lines 281-282): an `Rc<T>` shared
handle; `ptr` is the address of the shared allocation, `val` the
pointee. -/
structure ImageRef (T : Type) : Type where
  ptr : ℕ
  val : T
  deriving DecidableEq, Repr

/-- `impl PartialEq for ImageRef` (widgets.rs, lines 283-287):
`Rc::ptr_eq`, comparing addresses only. -/
def ImageRef.ptrEq {T : Type} (a b : ImageRef T) : Bool :=
  a.ptr == b.ptr

/-- `ImageKind` (widgets.rs, lines 289-293). -/
inductive ImageKind : Type where
  | texture (t : ImageRef Texture)
  | material (m : ImageRef Material)
  deriving DecidableEq, Repr

/-- The derived `PartialEq` for `ImageKind`: same variant and equal
`ImageRef` (which is `Rc::ptr_eq`). -/
def ImageKind.eq : ImageKind → ImageKind → Bool
  | .texture a, .texture b => a.ptrEq b
  | .material a, .material b => a.ptrEq b
  | _, _ => false

/-- The two `Widget` implementations, `Label` (widgets.rs, lines
208-214) and `Image` (widgets.rs, lines 307-314), as a closed sum; the
source's trait objects with `Any` downcasting become constructors.
`Label` stores the whole style snapshot, `Image` only the pivot
(`Image::new`, lines 317-328). -/
inductive Widget : Type where
  | label (id : ℕ) (pos : Metric) (state : ImguiState) (s : String)
  | image (id : ℕ) (pos : Metric) (size : Metric) (pivot : Metric) (kind : ImageKind)
  deriving DecidableEq, Repr

/-- `Widget::id` (widgets.rs, lines 228-230 and 345-347). -/
def Widget.id : Widget → ℕ
  | .label i _ _ _ => i
  | .image i _ _ _ _ => i

/-- `is_same` for both variants (widgets.rs, lines 269-274 and
382-387): downcast the other widget to the receiver's concrete type and
compare with the derived `PartialEq` (field-wise; `ImageKind` by handle
identity); a failed downcast — a cross-variant comparison — is
`false`.  `impl PartialEq for Widget` (widgets.rs, lines 34-38)
delegates to this. -/
def Widget.is_same : Widget → Widget → Bool
  | .label i p st s, .label i2 p2 st2 s2 =>
      i == i2 && p == p2 && st == st2 && s == s2
  | .image i p sz pv k, .image i2 p2 sz2 pv2 k2 =>
      i == i2 && p == p2 && sz == sz2 && pv == pv2 && k.eq k2
  | _, _ => false

/-- C7: two descriptors of the same variant are equal exactly when all
fields are equal, where a shared texture/material compares by identity
of the underlying allocation (`Rc::ptr_eq`) and never by structural
equality of the pointee (two handles to equal pointees at different
addresses are unequal); descriptors of different variants are never
equal. -/
theorem widget_eq_iff_fields_eq :
    (∀ i p st s i2 p2 st2 s2,
      (Widget.label i p st s).is_same (Widget.label i2 p2 st2 s2) = true ↔
        (i = i2 ∧ p = p2 ∧ st = st2 ∧ s = s2)) ∧
    (∀ i p sz pv k i2 p2 sz2 pv2 k2,
      (Widget.image i p sz pv k).is_same (Widget.image i2 p2 sz2 pv2 k2) = true ↔
        (i = i2 ∧ p = p2 ∧ sz = sz2 ∧ pv = pv2 ∧ k.eq k2 = true)) ∧
    (∀ a b, ImageKind.eq (.texture a) (.texture b) = true ↔ a.ptr = b.ptr) ∧
    (∀ a b, ImageKind.eq (.material a) (.material b) = true ↔ a.ptr = b.ptr) ∧
    (∀ a b, ImageKind.eq (.texture a) (.material b) = false) ∧
    (∀ a b, ImageKind.eq (.material a) (.texture b) = false) ∧
    (∃ a b : ImageRef Texture, a.val = b.val ∧
      ImageKind.eq (.texture a) (.texture b) = false) ∧
    (∀ i p st s i2 p2 sz2 pv2 k2,
      (Widget.label i p st s).is_same (Widget.image i2 p2 sz2 pv2 k2) = false ∧
      (Widget.image i2 p2 sz2 pv2 k2).is_same (Widget.label i p st s) = false) := by
  refine ⟨?_, ?_, ?_, ?_, ?_, ?_, ?_, ?_⟩
  · intro i p st s i2 p2 st2 s2
    simp [Widget.is_same, and_assoc]
  · intro i p sz pv k i2 p2 sz2 pv2 k2
    simp [Widget.is_same, and_assoc]
  · intro a b
    simp [ImageKind.eq, ImageRef.ptrEq]
  · intro a b
    simp [ImageKind.eq, ImageRef.ptrEq]
  · intro a b
    rfl
  · intro a b
    rfl
  · exact ⟨⟨0, ⟨7⟩⟩, ⟨1, ⟨7⟩⟩, rfl, rfl⟩
  · intro i p st s i2 p2 sz2 pv2 k2
    exact ⟨rfl, rfl⟩

/-- `ImguiRaw` (mod.rs, lines 112-117): the per-thread frame-builder
state; `render_list` holds the declared widgets. -/
structure ImguiRaw : Type where
  id : ℕ := 0
  state : ImguiState := {}
  render_list : List Widget := []
  deriving Repr

/-- `begin()` (mod.rs, lines 133-139): reset the id counter to 0 and
clear the frame list; the ambient style state persists. -/
def begin (inner : ImguiRaw) : ImguiRaw :=
  { inner with id := 0, render_list := [] }

/-- `add_widget(f)` (mod.rs, lines 141-156): increment the id counter,
snapshot the style state, and push the widget built by `f` when
`id as usize >= inner.render_list.len()`. -/
def add_widget (f : ℕ → ImguiState → Widget) (inner : ImguiRaw) : ImguiRaw :=
  let id := inner.id + 1
  let state := inner.state
  if inner.render_list.length ≤ id then
    { inner with id := id, render_list := inner.render_list ++ [f id state] }
  else
    { inner with id := id }

/-- `pivot(p)` (mod.rs, lines 158-163). -/
def pivot (p : ℚ × ℚ) (inner : ImguiRaw) : ImguiRaw :=
  { inner with state := { inner.state with pivot := Metric.Native p.1 p.2 } }

/-- `text_align(align)` (mod.rs, lines 165-170). -/
def text_align (align : TextAlign) (inner : ImguiRaw) : ImguiRaw :=
  { inner with state := { inner.state with text_align := align } }

/-- `label(pos, s)` (mod.rs, lines 172-175). -/
def label (pos : Metric) (s : String) : ImguiRaw → ImguiRaw :=
  add_widget (fun id state => .label id pos state s)

/-- `image(pos, size, tex)` (mod.rs, lines 177-180), with
`Image::new` keeping `state.pivot` and wrapping the texture handle. -/
def image (pos size : Metric) (tex : ImageRef Texture) : ImguiRaw → ImguiRaw :=
  add_widget (fun id state => .image id pos size state.pivot (.texture tex))

/-- `image_with_material(pos, size, material)` (mod.rs, lines
182-185). -/
def image_with_material (pos size : Metric) (m : ImageRef Material) : ImguiRaw → ImguiRaw :=
  add_widget (fun id state => .image id pos size state.pivot (.material m))

/-- One declaration call of the module's public surface. -/
inductive DeclCall : Type where
  | labelD (pos : Metric) (s : String)
  | imageD (pos size : Metric) (tex : ImageRef Texture)
  | imageMaterialD (pos size : Metric) (m : ImageRef Material)

/-- Dispatch one declaration call to the builder. -/
def applyCall (inner : ImguiRaw) : DeclCall → ImguiRaw
  | .labelD pos s => label pos s inner
  | .imageD pos size tex => image pos size tex inner
  | .imageMaterialD pos size m => image_with_material pos size m inner

/-- `add_widget` with the append guard removed: always push.  Stated
from the claim's words ("the conditional append guard is satisfied on
every declaration call") to be compared with the guarded source
version. -/
def add_widget_push (f : ℕ → ImguiState → Widget) (inner : ImguiRaw) : ImguiRaw :=
  { inner with id := inner.id + 1,
               render_list := inner.render_list ++ [f (inner.id + 1) inner.state] }

/-- `applyCall` built on the unguarded `add_widget_push`. -/
def applyCallPush (inner : ImguiRaw) : DeclCall → ImguiRaw
  | .labelD pos s => add_widget_push (fun id state => .label id pos state s) inner
  | .imageD pos size tex =>
      add_widget_push (fun id state => .image id pos size state.pivot (.texture tex)) inner
  | .imageMaterialD pos size m =>
      add_widget_push (fun id state => .image id pos size state.pivot (.material m)) inner

/-- The widget constructor a declaration call hands to `add_widget`. -/
def callFn : DeclCall → (ℕ → ImguiState → Widget)
  | .labelD pos s => fun id state => .label id pos state s
  | .imageD pos size tex => fun id state => .image id pos size state.pivot (.texture tex)
  | .imageMaterialD pos size m => fun id state => .image id pos size state.pivot (.material m)

lemma applyCall_eq_add_widget (inner : ImguiRaw) (c : DeclCall) :
    applyCall inner c = add_widget (callFn c) inner := by
  cases c <;> rfl

lemma applyCallPush_eq_add_widget_push (inner : ImguiRaw) (c : DeclCall) :
    applyCallPush inner c = add_widget_push (callFn c) inner := by
  cases c <;> rfl

lemma widget_id_callFn (c : DeclCall) (id : ℕ) (state : ImguiState) :
    (callFn c id state).id = id := by
  cases c <;> rfl

lemma add_widget_eq_push (f : ℕ → ImguiState → Widget) (inner : ImguiRaw)
    (h : inner.render_list.length ≤ inner.id + 1) :
    add_widget f inner = add_widget_push f inner := by
  simp [add_widget, add_widget_push, h]

/-- Invariant run of the builder: starting from a state whose list
length equals its id counter, every declaration call passes the append
guard, and ids continue sequentially. -/
lemma foldl_applyCall_spec (cs : List DeclCall) (inner : ImguiRaw)
    (h : inner.render_list.length = inner.id) :
    (cs.foldl applyCall inner).id = inner.id + cs.length ∧
    (cs.foldl applyCall inner).render_list.map Widget.id
      = inner.render_list.map Widget.id ++ List.range' (inner.id + 1) cs.length ∧
    (cs.foldl applyCall inner).render_list.length = inner.id + cs.length ∧
    cs.foldl applyCall inner = cs.foldl applyCallPush inner := by
  induction cs generalizing inner with
  | nil => simp [h]
  | cons c cs ih =>
    rw [List.foldl_cons, List.foldl_cons, applyCall_eq_add_widget,
        applyCallPush_eq_add_widget_push, add_widget_eq_push _ _ (by omega)]
    have h2 : (add_widget_push (callFn c) inner).render_list.length
        = (add_widget_push (callFn c) inner).id := by
      simp [add_widget_push, h]
    obtain ⟨hid, hmap, hlen, heq⟩ := ih (add_widget_push (callFn c) inner) h2
    refine ⟨?_, ?_, ?_, heq⟩
    · rw [hid]; simp [add_widget_push]; omega
    · rw [hmap]
      simp only [add_widget_push, List.map_append, List.map_cons, List.map_nil,
        widget_id_callFn, List.length_cons, List.range'_succ, List.append_assoc,
        List.cons_append, List.nil_append]
    · rw [hlen]; simp [add_widget_push]; omega

/-- C4: after `begin()` followed by any sequence of declaration calls,
the frame list holds exactly one widget per call, whose ids are exactly
`1..n` in call order, and the conditional append guard in `add_widget`
is satisfied on every call: the guarded fold equals the
unconditional-push fold. -/
theorem begin_declarations_assign_sequential_ids (inner : ImguiRaw) (cs : List DeclCall) :
    (cs.foldl applyCall (begin inner)).render_list.map Widget.id
        = List.range' 1 cs.length ∧
    (cs.foldl applyCall (begin inner)).render_list.length = cs.length ∧
    (cs.foldl applyCall (begin inner)).id = cs.length ∧
    cs.foldl applyCall (begin inner) = cs.foldl applyCallPush (begin inner) := by
  obtain ⟨hid, hmap, hlen, heq⟩ :=
    foldl_applyCall_spec cs (begin inner) (by simp [begin])
  refine ⟨?_, ?_, ?_, heq⟩ <;> simp_all [begin]

/-- The reconciliation cache `WidgetGoMap` (mod.rs, line 187):
`HashMap<u32, (Arc<widgets::Widget>, Rc<RefCell<GameObject>>)>`.  The
hash map is modelled as an association list with overwrite-on-insert
(only its lookup behaviour is observed by the module), and the bound
`GameObject` — created by the external engine — as an opaque node
handle `ℕ`. -/
abbrev WidgetGoMap : Type := List (ℕ × (Widget × ℕ))

/-- `HashMap::get`. -/
def hmLookup (hm : WidgetGoMap) (k : ℕ) : Option (Widget × ℕ) :=
  hm.lookup k

/-- `HashMap::insert`: overwrite any previous entry at the key. -/
def hmInsert (k : ℕ) (v : Widget × ℕ) (hm : WidgetGoMap) : WidgetGoMap :=
  (k, v) :: hm.filter (fun p => p.1 != k)

/-- `strip_cache(curr, hm)` (mod.rs, lines 207-216): collect every key
strictly greater than `curr` and remove those entries; as a map this
keeps exactly the entries with key `≤ curr`. -/
def strip_cache (curr : ℕ) (hm : WidgetGoMap) : WidgetGoMap :=
  hm.filter (fun p => decide (p.1 ≤ curr))

/-- The mutable state `pre_render` threads: the `Context`'s cache `go`
(mod.rs, lines 189-205) plus a fresh-node counter standing for the
engine's node allocation inside `Widget::bind` (the node's engine-side
contents are external collaborators). -/
structure RenderContext : Type where
  go : WidgetGoMap
  fresh : ℕ

/-- The rebind condition of the `pre_render` loop (mod.rs, lines
228-234): the cache misses at the widget's id, or the cached widget
differs (`**oldw != **w`, i.e. `!is_same`). -/
def shouldBind (hm : WidgetGoMap) (w : Widget) : Bool :=
  match hmLookup hm w.id with
  | none => true
  | some (oldw, _) => !(oldw.is_same w)

/-- One iteration of the `pre_render` loop (mod.rs, lines 227-240):
when `do_insert` holds, `w.bind(...)` creates a new scene node and the
cache entry at `w.id()` is overwritten; the `binds` component records,
in order, the ids for which `bind` was called. -/
def reconcileStep (acc : RenderContext × List ℕ) (w : Widget) : RenderContext × List ℕ :=
  if shouldBind acc.1.go w then
    ({ go := hmInsert w.id (w, acc.1.fresh) acc.1.go, fresh := acc.1.fresh + 1 },
      acc.2 ++ [w.id])
  else acc

/-- `pre_render(engine)` (mod.rs, lines 218-245): fold the frame list
through the loop, then `strip_cache` with the final id counter. -/
def pre_render (inner : ImguiRaw) (ctx : RenderContext) : RenderContext × List ℕ :=
  let res := inner.render_list.foldl reconcileStep (ctx, [])
  ({ res.1 with go := strip_cache inner.id res.1.go }, res.2)

lemma hmLookup_insert_self (k : ℕ) (v : Widget × ℕ) (hm : WidgetGoMap) :
    hmLookup (hmInsert k v hm) k = some v := by
  simp [hmLookup, hmInsert, List.lookup]

lemma lookup_filter_ne (hm : List (ℕ × (Widget × ℕ))) (k k2 : ℕ) (h : k2 ≠ k) :
    (hm.filter (fun p => p.1 != k)).lookup k2 = hm.lookup k2 := by
  induction hm with
  | nil => rfl
  | cons p t ih =>
    obtain ⟨a, v⟩ := p
    by_cases hp : a = k
    · have h1 : (a != k) = false := by simp [hp]
      have h2 : (k2 == a) = false := by simp [hp, h]
      simp [List.filter_cons, h1, List.lookup, h2, ih]
    · have h1 : (a != k) = true := by simp [hp]
      by_cases hp2 : k2 = a
      · have h2 : (k2 == a) = true := by simp [hp2]
        simp [List.filter_cons, h1, List.lookup, h2]
      · have h2 : (k2 == a) = false := by simp [hp2]
        simp [List.filter_cons, h1, List.lookup, h2, ih]

lemma hmLookup_insert_ne (k k2 : ℕ) (v : Widget × ℕ) (hm : WidgetGoMap) (h : k2 ≠ k) :
    hmLookup (hmInsert k v hm) k2 = hmLookup hm k2 := by
  have h2 : (k2 == k) = false := by simp [h]
  simp [hmLookup, hmInsert, List.lookup, h2, lookup_filter_ne hm k k2 h]

lemma shouldBind_congr (hm1 hm2 : WidgetGoMap) (w : Widget)
    (h : hmLookup hm1 w.id = hmLookup hm2 w.id) :
    shouldBind hm1 w = shouldBind hm2 w := by
  simp [shouldBind, h]

/-- Entries at a key not declared by any processed widget are untouched
by the loop, and no bind is recorded for that key. -/
lemma foldl_reconcileStep_not_declared (ws : List Widget)
    (acc : RenderContext × List ℕ) (k : ℕ) (h : ∀ w ∈ ws, w.id ≠ k) :
    hmLookup (ws.foldl reconcileStep acc).1.go k = hmLookup acc.1.go k ∧
    (ws.foldl reconcileStep acc).2.count k = acc.2.count k := by
  induction ws generalizing acc with
  | nil => exact ⟨rfl, rfl⟩
  | cons v vs ih =>
    have hv : v.id ≠ k := h v (by simp)
    have hrest : ∀ w ∈ vs, w.id ≠ k := fun w hw => h w (by simp [hw])
    rw [List.foldl_cons]
    obtain ⟨ihl, ihc⟩ := ih (reconcileStep acc v) hrest
    constructor
    · rw [ihl]
      unfold reconcileStep
      split
      · exact hmLookup_insert_ne v.id k _ acc.1.go (Ne.symm hv)
      · rfl
    · rw [ihc]
      unfold reconcileStep
      split
      · simp [List.count_append, List.count_singleton', Ne.symm hv]
      · rfl

/-- Characterisation of one frame's reconciliation loop at a declared
widget, for a frame list with pairwise-distinct ids: the number of
binds recorded at its id, and the cache entry at its id, are decided by
`shouldBind` against the cache the loop started from. -/
lemma foldl_reconcileStep_mem (ws : List Widget) (acc : RenderContext × List ℕ)
    (w : Widget) (hmem : w ∈ ws) (hnodup : (ws.map Widget.id).Nodup)
    (hcount : acc.2.count w.id = 0) :
    ((ws.foldl reconcileStep acc).2.count w.id
        = if shouldBind acc.1.go w then 1 else 0) ∧
    (shouldBind acc.1.go w = true →
      ∃ nd, hmLookup (ws.foldl reconcileStep acc).1.go w.id = some (w, nd)) ∧
    (shouldBind acc.1.go w = false →
      hmLookup (ws.foldl reconcileStep acc).1.go w.id = hmLookup acc.1.go w.id) := by
  induction ws generalizing acc with
  | nil => cases hmem
  | cons v vs ih =>
    rw [List.map_cons, List.nodup_cons] at hnodup
    obtain ⟨hvnotin, hnodvs⟩ := hnodup
    rcases List.mem_cons.mp hmem with rfl | hmemvs
    · have hall : ∀ u ∈ vs, u.id ≠ w.id := by
        intro u hu hc
        exact hvnotin (hc ▸ List.mem_map_of_mem Widget.id hu)
      rw [List.foldl_cons]
      obtain ⟨hl, hc2⟩ := foldl_reconcileStep_not_declared vs (reconcileStep acc w) w.id hall
      by_cases hsb : shouldBind acc.1.go w = true
      · have hstep : reconcileStep acc w
            = ({ go := hmInsert w.id (w, acc.1.fresh) acc.1.go, fresh := acc.1.fresh + 1 },
               acc.2 ++ [w.id]) := by
          unfold reconcileStep
          rw [hsb]
          simp
        refine ⟨?_, ?_, ?_⟩
        · rw [hc2, hstep, hsb]
          simp [List.count_append, hcount]
        · intro _
          rw [hl, hstep]
          exact ⟨acc.1.fresh, hmLookup_insert_self _ _ _⟩
        · intro hf
          rw [hsb] at hf
          cases hf
      · have hsbf : shouldBind acc.1.go w = false := by
          simpa using hsb
        have hstep : reconcileStep acc w = acc := by
          unfold reconcileStep
          rw [hsbf]
          simp
        refine ⟨?_, ?_, ?_⟩
        · rw [hc2, hstep, hcount, hsbf]
          simp
        · intro ht
          rw [hsbf] at ht
          cases ht
        · intro _
          rw [hl, hstep]
    · have hvw : v.id ≠ w.id := by
        intro hc
        exact hvnotin (hc ▸ List.mem_map_of_mem Widget.id hmemvs)
      have hstep_lookup : hmLookup (reconcileStep acc v).1.go w.id = hmLookup acc.1.go w.id := by
        unfold reconcileStep
        split
        · exact hmLookup_insert_ne v.id w.id _ acc.1.go (Ne.symm hvw)
        · rfl
      have hstep_count : (reconcileStep acc v).2.count w.id = 0 := by
        unfold reconcileStep
        split
        · simp [List.count_append, List.count_singleton', Ne.symm hvw, hcount]
        · exact hcount
      have hsb := shouldBind_congr (reconcileStep acc v).1.go acc.1.go w hstep_lookup
      rw [List.foldl_cons]
      obtain ⟨ih1, ih2, ih3⟩ := ih (reconcileStep acc v) hmemvs hnodvs hstep_count
      refine ⟨?_, ?_, ?_⟩
      · rw [ih1, hsb]
      · intro ht
        exact ih2 (by rw [hsb, ht])
      · intro hf
        rw [ih3 (by rw [hsb, hf]), hstep_lookup]

lemma hmLookup_strip_of_le (curr k : ℕ) (hm : WidgetGoMap) (h : k ≤ curr) :
    hmLookup (strip_cache curr hm) k = hmLookup hm k := by
  induction hm with
  | nil => rfl
  | cons p t ih =>
    obtain ⟨a, v⟩ := p
    by_cases ha : a ≤ curr
    · by_cases hk : k = a
      · have h2 : (k == a) = true := by simp [hk]
        simp [strip_cache, List.filter_cons, ha, hmLookup, List.lookup, h2]
      · have h2 : (k == a) = false := by simp [hk]
        simpa [strip_cache, List.filter_cons, ha, hmLookup, List.lookup, h2] using ih
    · have hk : k ≠ a := by omega
      have h2 : (k == a) = false := by simp [hk]
      simpa [strip_cache, List.filter_cons, ha, hmLookup, List.lookup, h2] using ih

lemma hmLookup_strip_of_gt (curr k : ℕ) (hm : WidgetGoMap) (h : curr < k) :
    hmLookup (strip_cache curr hm) k = none := by
  induction hm with
  | nil => rfl
  | cons p t ih =>
    obtain ⟨a, v⟩ := p
    by_cases ha : a ≤ curr
    · have hk : k ≠ a := by omega
      have h2 : (k == a) = false := by simp [hk]
      simpa [strip_cache, List.filter_cons, ha, hmLookup, List.lookup, h2] using ih
    · simpa [strip_cache, List.filter_cons, ha, hmLookup] using ih

/-- C1: during a `pre_render` pass over a frame list with
pairwise-distinct ids all bounded by the frame's final counter, each
declared widget is rebound — `bind` called exactly once for its id and
the cache entry at its id overwritten with the new descriptor — exactly
when the cache misses at its id or the cached descriptor is not equal
to it; when the cached descriptor is equal, no bind is recorded for the
id and the cache entry is left untouched. -/
theorem pre_render_rebinds_iff_changed (inner : ImguiRaw) (ctx : RenderContext)
    (w : Widget) (hmem : w ∈ inner.render_list)
    (hnodup : (inner.render_list.map Widget.id).Nodup)
    (hle : ∀ u ∈ inner.render_list, u.id ≤ inner.id) :
    ((pre_render inner ctx).2.count w.id = if shouldBind ctx.go w then 1 else 0) ∧
    (shouldBind ctx.go w = true →
      ∃ nd, hmLookup (pre_render inner ctx).1.go w.id = some (w, nd)) ∧
    (shouldBind ctx.go w = false →
      hmLookup (pre_render inner ctx).1.go w.id = hmLookup ctx.go w.id) := by
  obtain ⟨h1, h2, h3⟩ :=
    foldl_reconcileStep_mem inner.render_list (ctx, []) w hmem hnodup (by simp)
  have hstrip : ∀ hm, hmLookup (strip_cache inner.id hm) w.id = hmLookup hm w.id :=
    fun hm => hmLookup_strip_of_le inner.id w.id hm (hle w hmem)
  simp only [pre_render]
  refine ⟨h1, ?_, ?_⟩
  · intro ht
    obtain ⟨nd, hnd⟩ := h2 ht
    exact ⟨nd, by rw [hstrip, hnd]⟩
  · intro hf
    rw [hstrip]
    exact h3 hf

/-- Witness for C1: the cache holds labels `"a"` at id 1 and `"x"` at
id 2; the next frame declares `"b"` at id 1 and `"x"` at id 2 — the
pass rebinds id 1 exactly once (overwriting the entry with the new
label) and id 2 not at all. -/
theorem pre_render_rebinds_iff_changed_witness :
    (pre_render
        ⟨2, {}, [Widget.label 1 Metric.default {} "b", Widget.label 2 Metric.default {} "x"]⟩
        ⟨[(1, (Widget.label 1 Metric.default {} "a", 0)),
          (2, (Widget.label 2 Metric.default {} "x", 1))], 2⟩).2.count 1 = 1 ∧
    (pre_render
        ⟨2, {}, [Widget.label 1 Metric.default {} "b", Widget.label 2 Metric.default {} "x"]⟩
        ⟨[(1, (Widget.label 1 Metric.default {} "a", 0)),
          (2, (Widget.label 2 Metric.default {} "x", 1))], 2⟩).2.count 2 = 0 := by
  constructor
  · have h := (pre_render_rebinds_iff_changed
      ⟨2, {}, [Widget.label 1 Metric.default {} "b", Widget.label 2 Metric.default {} "x"]⟩
      ⟨[(1, (Widget.label 1 Metric.default {} "a", 0)),
        (2, (Widget.label 2 Metric.default {} "x", 1))], 2⟩
      (Widget.label 1 Metric.default {} "b") (by simp) (by decide)
      (by decide)).1
    exact h.trans (by decide)
  · have h := (pre_render_rebinds_iff_changed
      ⟨2, {}, [Widget.label 1 Metric.default {} "b", Widget.label 2 Metric.default {} "x"]⟩
      ⟨[(1, (Widget.label 1 Metric.default {} "a", 0)),
        (2, (Widget.label 2 Metric.default {} "x", 1))], 2⟩
      (Widget.label 2 Metric.default {} "x") (by simp) (by decide)
      (by decide)).1
    exact h.trans (by decide)

/-- A frame declaring `n` identical labels through the public surface:
`begin()` followed by `n` `label` calls. -/
def exampleFrame (n : ℕ) : ImguiRaw :=
  (List.replicate n (DeclCall.labelD Metric.default "t")).foldl applyCall (begin {})

/-- The cache after reconciling a 5-label frame against an empty
context. -/
def exampleCtx1 : RenderContext :=
  (pre_render (exampleFrame 5) ⟨[], 0⟩).1

/-- The cache after then reconciling a 3-label frame. -/
def exampleFinal : RenderContext :=
  (pre_render (exampleFrame 3) exampleCtx1).1

/-- C2: after the reconciliation loop, `strip_cache` removes a cache
entry exactly when its key exceeds the frame's final id counter, and
entries at keys `≤` that maximum keep their values; in particular,
reconciling a frame of ids 1-5 and then a frame of ids 1-3 leaves a
cache whose keys are exactly 1-3. -/
theorem strip_cache_evicts_iff_beyond_max :
    (∀ (curr k : ℕ) (hm : WidgetGoMap), curr < k →
        hmLookup (strip_cache curr hm) k = none) ∧
    (∀ (curr k : ℕ) (hm : WidgetGoMap), k ≤ curr →
        hmLookup (strip_cache curr hm) k = hmLookup hm k) ∧
    (∀ k, (hmLookup exampleFinal.go k).isSome = true ↔ (1 ≤ k ∧ k ≤ 3)) := by
  refine ⟨fun curr k hm h => hmLookup_strip_of_gt curr k hm h,
    fun curr k hm h => hmLookup_strip_of_le curr k hm h, ?_⟩
  have hval : exampleFinal.go =
      [(3, (Widget.label 3 Metric.default {} "t", 2)),
       (2, (Widget.label 2 Metric.default {} "t", 1)),
       (1, (Widget.label 1 Metric.default {} "t", 0))] := by decide
  intro k
  rw [hval]
  by_cases h3 : k = 3
  · simp [hmLookup, List.lookup, h3]
  · by_cases h2 : k = 2
    · simp [hmLookup, List.lookup, h2]
    · by_cases h1 : k = 1
      · simp [hmLookup, List.lookup, h1]
      · have e3 : (k == 3) = false := by simp [h3]
        have e2 : (k == 2) = false := by simp [h2]
        have e1 : (k == 1) = false := by simp [h1]
        simp [hmLookup, List.lookup, e3, e2, e1]
        omega

/-- Witness for C2 at concrete inputs: an entry at key 4 is evicted by
`strip_cache 3`, and an entry at key 2 survives it unchanged. -/
theorem strip_cache_evicts_iff_beyond_max_witness :
    hmLookup (strip_cache 3 [(4, (Widget.label 4 Metric.default {} "t", 0))]) 4 = none ∧
    hmLookup (strip_cache 3 [(2, (Widget.label 2 Metric.default {} "t", 0))]) 2 =
      hmLookup [(2, (Widget.label 2 Metric.default {} "t", 0))] 2 := by
  exact ⟨strip_cache_evicts_iff_beyond_max.1 3 4 _ (by decide),
    strip_cache_evicts_iff_beyond_max.2.1 3 2 _ (by decide)⟩

/-- A 3D point of the external math library; the module reads only the
`x` and `y` components of bounds. -/
structure Vec3 : Type where
  x : ℚ
  y : ℚ
  z : ℚ

/-- `Aabb` (engine core, external): an axis-aligned bounding box. -/
structure Aabb : Type where
  min : Vec3
  max : Vec3

/-- `to_pixel_pos(px, py, ssize, hidpi)` (widgets.rs, lines 201-206):
a pixel offset as a normalized-device-coordinate delta. -/
def to_pixel_pos (px py : ℚ) (ssize : ℕ × ℕ) (hidpi : ℚ) : ℚ × ℚ :=
  ((px * 2 * hidpi) / (ssize.1 : ℚ), (py * 2 * hidpi) / (ssize.2 : ℚ))

/-- `compute_size_to_ndc(size, ssize, hidpi)` (widgets.rs, lines
161-172). -/
def compute_size_to_ndc (size : Metric) (ssize : ℕ × ℕ) (hidpi : ℚ) : ℚ × ℚ :=
  match size with
  | .Native px py => (px * 2, py * 2)
  | .Pixel px py => to_pixel_pos px py ssize hidpi
  | .Mixed (ax, ay) (bx, by_) =>
      let vp := to_pixel_pos bx by_ ssize hidpi
      (ax * 2 + vp.1, ay * 2 + vp.2)

/-- `compute_translate(pos, pivot, ssize, hidpi, bounds)` (widgets.rs,
lines 174-199).  The `unreachable!` arm for a non-`Native` pivot is
modelled as `none`; otherwise the translation triple is returned. -/
def compute_translate (pos pivot : Metric) (ssize : ℕ × ℕ) (hidpi : ℚ)
    (bounds : Aabb) : Option (ℚ × ℚ × ℚ) :=
  let w := bounds.max.x - bounds.min.x
  let h := bounds.max.y - bounds.min.y
  let xy : ℚ × ℚ :=
    match pos with
    | .Native px py => (px * 2, py * 2)
    | .Pixel px py => to_pixel_pos px py ssize hidpi
    | .Mixed (ax, ay) (bx, by_) =>
        let vp := to_pixel_pos bx by_ ssize hidpi
        (ax * 2 + vp.1, ay * 2 + vp.2)
  match pivot with
  | .Native px py => some (xy.1 - 1 - px * w, xy.2 * (-1) + 1 + py * h, 0)
  | _ => none

/-- C5: with a `Native(p,q)` pivot, `compute_translate` returns
`(x - 1 - p*w, -y + 1 + q*h, 0)` where `(x,y)` is the position under
the same size-to-NDC conversion rule as `compute_size_to_ndc` and
`w`/`h` are the bounds extents; a pivot of any other kind hits the
`unreachable!` contract violation; and at pivot `Native(1/2,1/2)` with
position `Native(0,0)` the result is `(-1 - w/2, 1 + h/2, 0)`. -/
theorem compute_translate_spec (pos : Metric) (p q : ℚ) (ssize : ℕ × ℕ)
    (hidpi : ℚ) (bounds : Aabb) :
    (compute_translate pos (.Native p q) ssize hidpi bounds =
      some ((compute_size_to_ndc pos ssize hidpi).1 - 1
              - p * (bounds.max.x - bounds.min.x),
            -(compute_size_to_ndc pos ssize hidpi).2 + 1
              + q * (bounds.max.y - bounds.min.y),
            0)) ∧
    (∀ pivot : Metric, (∀ a b, pivot ≠ .Native a b) →
      compute_translate pos pivot ssize hidpi bounds = none) ∧
    (compute_translate (.Native 0 0) (.Native (1/2) (1/2)) ssize hidpi bounds =
      some (-1 - (1/2) * (bounds.max.x - bounds.min.x),
            1 + (1/2) * (bounds.max.y - bounds.min.y), 0)) := by
  refine ⟨?_, ?_, ?_⟩
  · cases pos with
    | Native px py =>
      simp [compute_translate, compute_size_to_ndc]
    | Pixel px py =>
      simp [compute_translate, compute_size_to_ndc]
    | Mixed a b =>
      obtain ⟨ax, ay⟩ := a
      obtain ⟨bx, by_⟩ := b
      simp [compute_translate, compute_size_to_ndc]
  · intro pivot hpiv
    cases pivot with
    | Native a b => exact absurd rfl (hpiv a b)
    | Pixel _ _ => rfl
    | Mixed _ _ => rfl
  · simp [compute_translate]

/-- Witness for C5: a `Pixel` pivot (which no caller can legally pass)
drives `compute_translate` into the `unreachable!` arm. -/
theorem compute_translate_spec_witness :
    compute_translate (.Native 0 0) (.Pixel 1 2) (800, 600) 1
      ⟨⟨0, 0, 0⟩, ⟨1, 1, 0⟩⟩ = none :=
  (compute_translate_spec (.Native 0 0) 0 0 (800, 600) 1
      ⟨⟨0, 0, 0⟩, ⟨1, 1, 0⟩⟩).2.1 (.Pixel 1 2)
    (fun _ _ h => Metric.noConfusion h)

/-- `MeshData` (engine collaborator): the buffers filled by the mesh
builders.  The index buffer holds `u16` values, modelled as naturals
reduced `% 65536` where they are computed. -/
structure MeshData : Type where
  vertices : List ℚ
  uvs : Option (List ℚ)
  normals : Option (List ℚ)
  indices : List ℕ
  tangents : Option (List ℚ)
  bitangents : Option (List ℚ)

/-- `s.split('\n')` over the string's characters: split at every
newline, keeping empty pieces; never returns an empty list of lines. -/
def splitLines : List Char → List (List Char)
  | [] => [[]]
  | c :: rest =>
      if c = '\n' then [] :: splitLines rest
      else
        match splitLines rest with
        | [] => [[c]]
        | l :: ls => (c :: l) :: ls

/-- `line.len()` of a Rust `&str` slice: its UTF-8 byte length (which
coincides with the character count exactly on ASCII text). -/
def utf8Len (l : List Char) : ℕ :=
  (l.map Char.utf8Size).sum

/-- `max_len` (widgets.rs, line 57): the fold of `cmp::max` over the
lines' byte lengths. -/
def max_len (lines : List (List Char)) : ℕ :=
  lines.foldl (fun acc line => max acc (utf8Len line)) 0

/-- The glyph atlas cell for a character (widgets.rs, lines 67-70):
`let mut c: u8 = c as u8;` truncates the scalar value to its low byte,
then a byte `>= 128` is clamped to `128`. -/
def glyphCell (c : Char) : ℕ :=
  let b := c.toNat % 256
  if 128 ≤ b then 128 else b

/-- `icw` (widgets.rs, line 45): glyph cell width in UV space. -/
def icw : ℚ := 8 / 128

/-- `ich` (widgets.rs, line 46): glyph cell height in UV space. -/
def ich : ℚ := 8 / 64

/-- `nrow` (widgets.rs, line 49): atlas cells per row, `128 / 8`. -/
def nrow : ℕ := 128 / 8

/-- `gw` (widgets.rs, line 51): glyph width in NDC. -/
def text_gw (size : ℕ × ℕ) (hidpi : ℚ) : ℚ :=
  ((8 : ℚ) / (size.1 : ℚ)) * 2 * hidpi

/-- `gh` (widgets.rs, line 52): glyph height in NDC. -/
def text_gh (size : ℕ × ℕ) (hidpi : ℚ) : ℚ :=
  ((8 : ℚ) / (size.2 : ℚ)) * 2 * hidpi

/-- The mutable loop state of `make_text_mesh_data`: the three growing
buffers, the glyph counter `i` and the current `base_y`. -/
@[ext] structure TextAcc : Type where
  vertices : List ℚ
  uvs : List ℚ
  indices : List ℕ
  i : ℕ
  baseY : ℚ

/-- The 12 vertex floats appended for one glyph quad at `(gx, baseY)`
(widgets.rs, lines 77-90). -/
def glyphQuadVerts (gx baseY gw gh : ℚ) : List ℚ :=
  [gx + 0, baseY, 0,
   gx + 0, baseY - gh, 0,
   gx + gw, baseY - gh, 0,
   gx + gw, baseY, 0]

/-- The 8 UV floats appended for one glyph (widgets.rs, lines 92-101),
from the atlas row `cell / nrow` and column `cell % nrow`. -/
def glyphQuadUvs (cell : ℕ) : List ℚ :=
  let g_row : ℚ := ((cell / nrow : ℕ) : ℚ)
  let g_col : ℚ := ((cell % nrow : ℕ) : ℚ)
  [g_col * icw + 0, g_row * ich,
   g_col * icw + 0, g_row * ich + ich,
   g_col * icw + icw, g_row * ich + ich,
   g_col * icw + icw, g_row * ich]

/-- The six `u16` index entries appended for glyph number `i`
(widgets.rs, lines 103-110). -/
def glyphQuadIndices (i : ℕ) : List ℕ :=
  [(i * 4) % 65536, (i * 4 + 1) % 65536, (i * 4 + 2) % 65536,
   (i * 4 + 0) % 65536, (i * 4 + 2) % 65536, (i * 4 + 3) % 65536]

/-- The body of the per-character loop of `make_text_mesh_data`
(widgets.rs, lines 66-113), for the enumerated character `p`. -/
def glyphStep (gw gh x_offset : ℚ) (acc : TextAcc) (p : ℕ × Char) : TextAcc :=
  let cell := glyphCell p.2
  let gx := (p.1 : ℚ) * gw + x_offset
  { vertices := acc.vertices ++ glyphQuadVerts gx acc.baseY gw gh,
    uvs := acc.uvs ++ glyphQuadUvs cell,
    indices := acc.indices ++ glyphQuadIndices acc.i,
    i := acc.i + 1,
    baseY := acc.baseY }

/-- The per-line alignment offset (widgets.rs, lines 60-64): `Left` is
0, `Right` shifts by the byte-length deficit times `gw`, `Center` by
half that. -/
def lineXOffset (gw : ℚ) (maxLen : ℕ) (align : TextAlign) (line : List Char) : ℚ :=
  match align with
  | .Left => 0
  | .Right => ((maxLen - utf8Len line : ℕ) : ℚ) * gw
  | .Center => ((maxLen - utf8Len line : ℕ) : ℚ) * gw * 0.5

/-- The body of the per-line loop (widgets.rs, lines 59-116): compute
the alignment offset, fold the enumerated characters, then move
`base_y` down by `gh * 2`. -/
def lineStep (gw gh : ℚ) (maxLen : ℕ) (align : TextAlign) (acc : TextAcc)
    (line : List Char) : TextAcc :=
  let x_offset := lineXOffset gw maxLen align line
  let acc2 := line.enum.foldl (glyphStep gw gh x_offset) acc
  { acc2 with baseY := acc2.baseY - gh * 2 }

/-- `make_text_mesh_data(s, size, hidpi, align)` (widgets.rs, lines
40-126). -/
def make_text_mesh_data (s : String) (size : ℕ × ℕ) (hidpi : ℚ)
    (align : TextAlign) : MeshData :=
  let gw := text_gw size hidpi
  let gh := text_gh size hidpi
  let lines := splitLines s.data
  let maxLen := max_len lines
  let res := lines.foldl (lineStep gw gh maxLen align) ⟨[], [], [], 0, 0⟩
  { vertices := res.vertices, uvs := some res.uvs, normals := none,
    indices := res.indices, tangents := none, bitangents := none }

/-- `make_quad_mesh_data(size)` (widgets.rs, lines 128-159). -/
def make_quad_mesh_data (size : ℚ × ℚ) : MeshData :=
  { vertices := [0, 0, 0, 0, -size.2, 0, size.1, -size.2, 0, size.1, 0, 0],
    uvs := some [0, 1, 0, 0, 1, 0, 1, 1],
    normals := none,
    indices := [0, 1, 2, 0, 2, 3],
    tangents := none,
    bitangents := none }

lemma join_range_succ (f : ℕ → List ℕ) (n s : ℕ) :
    ((List.range (n + 1)).map (fun k => f (s + k))).flatten
      = f s ++ ((List.range n).map (fun k => f (s + 1 + k))).flatten := by
  rw [List.range_succ_eq_map]
  simp only [List.map_cons, List.map_map, List.flatten_cons, Nat.add_zero]
  congr 2
  apply List.map_congr_left
  intro k _
  simp only [Function.comp]
  congr 1
  omega

/-- The character loop, run from any accumulator: each enumerated
character appends its quad at `x = cidx * gw + x_offset` on the current
`base_y`, its UV cell quad, and six indices for the running glyph
counter. -/
lemma glyphFold_spec (gw gh xoff : ℚ) (l : List (ℕ × Char)) (acc : TextAcc) :
    l.foldl (glyphStep gw gh xoff) acc =
      { vertices := acc.vertices ++
          (l.map (fun p => glyphQuadVerts ((p.1 : ℚ) * gw + xoff) acc.baseY gw gh)).flatten,
        uvs := acc.uvs ++ (l.map (fun p => glyphQuadUvs (glyphCell p.2))).flatten,
        indices := acc.indices ++
          ((List.range l.length).map (fun k => glyphQuadIndices (acc.i + k))).flatten,
        i := acc.i + l.length,
        baseY := acc.baseY } := by
  induction l generalizing acc with
  | nil =>
    cases acc
    simp
  | cons p ps ih =>
    rw [List.foldl_cons, ih]
    refine TextAcc.ext ?_ ?_ ?_ ?_ ?_
    · simp [glyphStep, List.append_assoc]
    · simp [glyphStep, List.append_assoc]
    · simp only [glyphStep, List.length_cons]
      rw [join_range_succ glyphQuadIndices ps.length acc.i]
      simp [List.append_assoc]
    · simp [glyphStep]
      omega
    · simp [glyphStep]

lemma join_range_add (f : ℕ → List ℕ) (m n s : ℕ) :
    ((List.range (m + n)).map (fun k => f (s + k))).flatten
      = ((List.range m).map (fun k => f (s + k))).flatten
        ++ ((List.range n).map (fun k => f (s + m + k))).flatten := by
  rw [List.range_add]
  simp only [List.map_append, List.map_map, List.flatten_append]
  congr 2
  apply List.map_congr_left
  intro k _
  simp only [Function.comp]
  congr 1
  omega

lemma enum_map_snd_fn {β : Type} (l : List Char) (g : Char → β) :
    l.enum.map (fun p => g p.2) = l.map g := by
  conv_rhs => rw [← List.enum_map_snd l]
  rw [List.map_map]
  rfl

/-- Declarative text layout, stated from the claim: within a line the
glyph at character index `i` sits at `x = i * gw + offset(align, line)`
on the line's `base_y`, and each following line lies `gh * 2` lower. -/
def textVertsSpec (gw gh : ℚ) (maxLen : ℕ) (align : TextAlign) :
    ℚ → List (List Char) → List ℚ
  | _, [] => []
  | baseY, line :: rest =>
      (line.enum.map (fun p =>
        glyphQuadVerts ((p.1 : ℚ) * gw + lineXOffset gw maxLen align line)
          baseY gw gh)).flatten
        ++ textVertsSpec gw gh maxLen align (baseY - gh * 2) rest

/-- The line loop, run from any accumulator, produces the declarative
layout for the vertices, the per-character UV quads in order for the
UVs, and one index quad per glyph for the running counter. -/
lemma lineFold_spec (gw gh : ℚ) (maxLen : ℕ) (align : TextAlign)
    (lines : List (List Char)) (acc : TextAcc) :
    lines.foldl (lineStep gw gh maxLen align) acc =
      { vertices := acc.vertices ++ textVertsSpec gw gh maxLen align acc.baseY lines,
        uvs := acc.uvs ++
          (lines.map (fun line =>
            (line.map (fun c => glyphQuadUvs (glyphCell c))).flatten)).flatten,
        indices := acc.indices ++
          ((List.range (lines.map List.length).sum).map
            (fun k => glyphQuadIndices (acc.i + k))).flatten,
        i := acc.i + (lines.map List.length).sum,
        baseY := acc.baseY - (lines.length : ℚ) * (gh * 2) } := by
  induction lines generalizing acc with
  | nil =>
    cases acc
    simp [textVertsSpec]
  | cons line rest ih =>
    rw [List.foldl_cons]
    have hstep : lineStep gw gh maxLen align acc line =
        { vertices := acc.vertices ++
            (line.enum.map (fun p =>
              glyphQuadVerts ((p.1 : ℚ) * gw + lineXOffset gw maxLen align line)
                acc.baseY gw gh)).flatten,
          uvs := acc.uvs ++ (line.map (fun c => glyphQuadUvs (glyphCell c))).flatten,
          indices := acc.indices ++
            ((List.range line.length).map (fun k => glyphQuadIndices (acc.i + k))).flatten,
          i := acc.i + line.length,
          baseY := acc.baseY - gh * 2 } := by
      simp only [lineStep, glyphFold_spec]
      refine TextAcc.ext ?_ ?_ ?_ ?_ ?_ <;>
        simp [enum_map_snd_fn line (fun c => glyphQuadUvs (glyphCell c))]
    rw [hstep, ih]
    refine TextAcc.ext ?_ ?_ ?_ ?_ ?_
    · simp [textVertsSpec, List.append_assoc]
    · simp [List.append_assoc]
    · simp only [List.map_cons, List.sum_cons]
      rw [join_range_add glyphQuadIndices line.length (rest.map List.length).sum acc.i]
      simp [List.append_assoc]
    · simp
      omega
    · simp [List.length_cons]
      ring

/-- The vertex buffer of `make_text_mesh_data` equals the declarative
layout. -/
lemma make_text_mesh_vertices (s : String) (size : ℕ × ℕ) (hidpi : ℚ)
    (align : TextAlign) :
    (make_text_mesh_data s size hidpi align).vertices
      = textVertsSpec (text_gw size hidpi) (text_gh size hidpi)
          (max_len (splitLines s.data)) align 0 (splitLines s.data) := by
  simp only [make_text_mesh_data, lineFold_spec]
  simp

/-- C8: `make_text_mesh_data` realises the declarative layout: the
text splits on line breaks, the glyph at character index `i` of a line
sits at `x = i * gw + offset`, where the offset is 0 for `Left`,
`(max_len - line_len) * gw` for `Right` and half that for `Center`
(lengths being the code's `line.len()` byte lengths, which equal
character counts on ASCII text such as the claim's example), and each
successive line sits `2 * gh` lower; in particular, for `"ab\nc"`
under `Right` the single glyph of line 2 is offset by exactly one
glyph width `gw`. -/
theorem make_text_mesh_layout (s : String) (size : ℕ × ℕ) (hidpi : ℚ)
    (align : TextAlign) :
    ((make_text_mesh_data s size hidpi align).vertices
      = textVertsSpec (text_gw size hidpi) (text_gh size hidpi)
          (max_len (splitLines s.data)) align 0 (splitLines s.data)) ∧
    ((make_text_mesh_data "ab\nc" size hidpi .Right).vertices
      = glyphQuadVerts 0 0 (text_gw size hidpi) (text_gh size hidpi)
        ++ glyphQuadVerts (text_gw size hidpi) 0 (text_gw size hidpi)
            (text_gh size hidpi)
        ++ glyphQuadVerts (1 * text_gw size hidpi)
            (-(text_gh size hidpi * 2)) (text_gw size hidpi)
            (text_gh size hidpi)) := by
  refine ⟨make_text_mesh_vertices s size hidpi align, ?_⟩
  rw [make_text_mesh_vertices "ab\nc" size hidpi .Right]
  have hsplit : splitLines "ab\nc".data = [['a', 'b'], ['c']] := rfl
  have hmax : max_len [['a', 'b'], ['c']] = 2 := rfl
  rw [hsplit, hmax]
  have ha : 'a'.utf8Size = 1 := rfl
  have hb : 'b'.utf8Size = 1 := rfl
  have hc : 'c'.utf8Size = 1 := rfl
  have henum2 : (['a', 'b'] : List Char).enum = [(0, 'a'), (1, 'b')] := rfl
  have henum1 : (['c'] : List Char).enum = [(0, 'c')] := rfl
  simp [textVertsSpec, lineXOffset, utf8Len, glyphQuadVerts, ha, hb, hc, henum2, henum1]

/-- The UV buffer of `make_text_mesh_data`: one atlas quad per
character, cell given by `glyphCell`. -/
lemma make_text_mesh_uvs (s : String) (size : ℕ × ℕ) (hidpi : ℚ)
    (align : TextAlign) :
    (make_text_mesh_data s size hidpi align).uvs
      = some (((splitLines s.data).map (fun line =>
          (line.map (fun c => glyphQuadUvs (glyphCell c))).flatten)).flatten) := by
  simp only [make_text_mesh_data, lineFold_spec]
  simp

/-- C9 (amended): for every character, the glyph UV cell is selected by
the character's code reduced to its low byte (`c as u8`, i.e. code mod
256), with low bytes `>= 128` clamped to cell 128.  The unamended
claim — that every character with code `>= 128` clamps to cell 128 —
fails for codes `>= 256`, whose truncated low byte may fall below
128. -/
theorem make_text_mesh_uv_cells (s : String) (size : ℕ × ℕ) (hidpi : ℚ)
    (align : TextAlign) :
    (make_text_mesh_data s size hidpi align).uvs
      = some (((splitLines s.data).map (fun line =>
          (line.map (fun c => glyphQuadUvs
            (if 128 ≤ c.toNat % 256 then 128 else c.toNat % 256))).flatten)).flatten) := by
  rw [make_text_mesh_uvs]
  simp [glyphCell]

/-- Counterexample for C9 as stated: `'Ā'` has code 256 `>= 128`, yet
its quad uses cell 0 (its low byte), not the clamp cell 128. -/
theorem make_text_mesh_uv_clamp_counterexample :
    128 ≤ ('Ā' : Char).toNat ∧
    (make_text_mesh_data "Ā" (16, 16) 1 .Left).uvs = some (glyphQuadUvs 0) ∧
    glyphQuadUvs 0 ≠ glyphQuadUvs 128 := by
  refine ⟨by decide, ?_, ?_⟩
  · rw [make_text_mesh_uvs]
    have hsplit : splitLines "Ā".data = [['Ā']] := rfl
    have hcell : glyphCell 'Ā' = 0 := rfl
    rw [hsplit]
    simp [hcell]
  · norm_num [glyphQuadUvs, nrow, icw, ich]

lemma flatten_const_length {α β : Type} (f : α → List β) (c : ℕ)
    (h : ∀ x, (f x).length = c) (l : List α) :
    ((l.map f).flatten).length = c * l.length := by
  induction l with
  | nil => simp
  | cons a t ih =>
    simp [h, ih]
    ring

lemma textVertsSpec_length (gw gh : ℚ) (maxLen : ℕ) (align : TextAlign)
    (baseY : ℚ) (lines : List (List Char)) :
    (textVertsSpec gw gh maxLen align baseY lines).length
      = 12 * (lines.map List.length).sum := by
  induction lines generalizing baseY with
  | nil => simp [textVertsSpec]
  | cons line rest ih =>
    simp [textVertsSpec,
      flatten_const_length
        (fun p => glyphQuadVerts ((p.1 : ℚ) * gw + lineXOffset gw maxLen align line)
          baseY gw gh)
        12 (fun p => by simp [glyphQuadVerts]) line.enum,
      ih]
    ring

lemma text_uvs_length (lines : List (List Char)) :
    (((lines.map (fun line =>
        (line.map (fun c => glyphQuadUvs (glyphCell c))).flatten)).flatten).length)
      = 8 * (lines.map List.length).sum := by
  induction lines with
  | nil => simp
  | cons line rest ih =>
    simp [flatten_const_length (fun c => glyphQuadUvs (glyphCell c)) 8
      (fun c => by simp [glyphQuadUvs]) line, ih]
    ring

lemma mem_glyphQuadIndices (x i : ℕ) (h : x ∈ glyphQuadIndices i) :
    ∃ j, j ≤ 3 ∧ x = (i * 4 + j) % 65536 := by
  simp only [glyphQuadIndices, List.mem_cons, List.not_mem_nil, or_false] at h
  rcases h with rfl | rfl | rfl | rfl | rfl | rfl
  · exact ⟨0, by omega, by simp⟩
  · exact ⟨1, by omega, rfl⟩
  · exact ⟨2, by omega, rfl⟩
  · exact ⟨0, by omega, rfl⟩
  · exact ⟨2, by omega, rfl⟩
  · exact ⟨3, by omega, rfl⟩

lemma init_le_foldl_max (lines : List (List Char)) (a : ℕ) :
    a ≤ lines.foldl (fun acc l => max acc (utf8Len l)) a := by
  induction lines generalizing a with
  | nil => exact le_refl a
  | cons l t ih => exact le_trans (le_max_left a (utf8Len l)) (ih _)

lemma le_max_len (lines : List (List Char)) (line : List Char) (h : line ∈ lines) :
    utf8Len line ≤ max_len lines := by
  unfold max_len
  suffices haux : ∀ (ls : List (List Char)) (a : ℕ), line ∈ ls →
      utf8Len line ≤ ls.foldl (fun acc l => max acc (utf8Len l)) a from
    haux lines 0 h
  intro ls
  induction ls with
  | nil =>
    intro a h2
    cases h2
  | cons l t ih =>
    intro a h2
    rcases List.mem_cons.mp h2 with rfl | h3
    · exact le_trans (le_max_right a (utf8Len line)) (init_le_foldl_max t _)
    · exact ih _ h3

/-- C10: `make_text_mesh_data` is total and well-formed: the unsigned
subtraction `max_len - line.len()` in the alignment offset never
underflows (every line's byte length is bounded by the fold maximum),
and whenever the total non-newline character count `n` is below 16384
— so that the `u16` index arithmetic cannot wrap — the buffers hold
exactly `12n` vertex floats, `8n` UV floats and `6n` indices, each
index strictly below the vertex count `4n`. -/
theorem make_text_mesh_total_well_formed (s : String) (size : ℕ × ℕ)
    (hidpi : ℚ) (align : TextAlign) :
    (∀ line ∈ splitLines s.data, utf8Len line ≤ max_len (splitLines s.data)) ∧
    (((splitLines s.data).map List.length).sum < 16384 →
      (make_text_mesh_data s size hidpi align).vertices.length
          = 12 * ((splitLines s.data).map List.length).sum ∧
      (∃ u, (make_text_mesh_data s size hidpi align).uvs = some u ∧
        u.length = 8 * ((splitLines s.data).map List.length).sum) ∧
      (make_text_mesh_data s size hidpi align).indices.length
          = 6 * ((splitLines s.data).map List.length).sum ∧
      (∀ idx ∈ (make_text_mesh_data s size hidpi align).indices,
        idx < 4 * ((splitLines s.data).map List.length).sum)) := by
  constructor
  · intro line h
    exact le_max_len (splitLines s.data) line h
  · intro hn
    refine ⟨?_, ?_, ?_, ?_⟩
    · rw [make_text_mesh_vertices, textVertsSpec_length]
    · exact ⟨_, make_text_mesh_uvs s size hidpi align, text_uvs_length _⟩
    · simp only [make_text_mesh_data, lineFold_spec]
      simp
      have hconst : (List.length ∘ fun k => glyphQuadIndices k) = fun _ : ℕ => 6 :=
        funext fun k => by simp [glyphQuadIndices]
      rw [hconst]
      simp [List.map_const', List.sum_replicate, smul_eq_mul]
      ring
    · intro idx hidx
      simp only [make_text_mesh_data, lineFold_spec] at hidx
      simp only [List.nil_append, Nat.zero_add] at hidx
      rw [List.mem_flatten] at hidx
      obtain ⟨l, hl, hmem⟩ := hidx
      rw [List.mem_map] at hl
      obtain ⟨k, hk, rfl⟩ := hl
      rw [List.mem_range] at hk
      obtain ⟨j, hj, rfl⟩ := mem_glyphQuadIndices _ _ hmem
      have hlt : k * 4 + j < 65536 := by omega
      rw [Nat.mod_eq_of_lt hlt]
      omega

/-- Witness for C10 at `"ab\nc"`: line `"ab"` is within the fold
maximum, and with `n = 3` glyphs the index buffer holds `6n = 18`
entries. -/
theorem make_text_mesh_total_well_formed_witness :
    utf8Len ['a', 'b'] ≤ max_len (splitLines "ab\nc".data) ∧
    (make_text_mesh_data "ab\nc" (16, 16) 1 .Left).indices.length
      = 6 * ((splitLines "ab\nc".data).map List.length).sum :=
  ⟨(make_text_mesh_total_well_formed "ab\nc" (16, 16) 1 .Left).1 ['a', 'b'] (by decide),
    ((make_text_mesh_total_well_formed "ab\nc" (16, 16) 1 .Left).2 (by decide)).2.2.1⟩

end Unrust
